import Mathlib

set_option maxHeartbeats 1000000

namespace LogContainer

/-! Shallow embedding of src/log_container.py.

The program runs a docker container, reads its stdout and stderr streams on
two producer threads that put messages on one shared FIFO queue, and drives a
single consumer loop that stamps each dequeued message with a wall clock
timestamp in milliseconds, accumulates the entries in logs_batch and
periodically sends the whole batch to CloudWatch Logs with put_log_events.
The embedding models the loop state and the per iteration observations
(polled container status, result of q.get, clock reads, KeyboardInterrupt
arrival, put_log_events failure) explicitly, and keeps ghost history fields
(the successful flush payloads and the sequence of dequeued items) so that
properties of whole runs can be stated. -/

/-- The dict built for every stream line in produce_log_messages. -/
structure LogMessage where
  command : String
  source : String
  data : String
deriving DecidableEq

/-- Python str.rstrip applied with a newline argument: drop every trailing
newline character. -/
def rstrip_newline (s : String) : String :=
  String.mk ((s.data.reverse.dropWhile (fun c => c = '\n')).reverse)

/-- The message produce_log_messages builds from one line of the stream
(line 148 to 152 of the source). -/
def mkMessage (source_name command line : String) : LogMessage :=
  { command := command, source := source_name, data := rstrip_newline line }

/-- Model of produce_log_messages (lines 146 to 154).  The stream is modelled
by the list of lines its iterator yields before it either reaches end of
stream (readError = false) or raises a read error (readError = true).  The
result is the sequence of items the thread puts on the queue, in order.  The
function has no exception handler, so a raised read error aborts the for loop
and the final q.put of the None death pill never runs. -/
def produce_log_messages (lines : List String) (readError : Bool)
    (source_name command : String) : List (Option LogMessage) :=
  let msgs := lines.map (fun line => some (mkMessage source_name command line))
  if readError then msgs else msgs ++ [none]

/-- One element of logs_batch (lines 84 to 89): the timestamp in integer
milliseconds and the message.  The source stores json.dumps of the message
dict in the message field; json.dumps is injective on these records, so the
model keeps the structured message. -/
structure LogEntry where
  timestamp : Int
  message : LogMessage
deriving DecidableEq

/-- Line 16 of the source, in seconds. -/
def SEND_LOGS_INTERVAL : Int := 5

/-- Length of the producers list built on lines 62 to 65: one thread per
stream (stdout and stderr). -/
def numProducers : Nat := 2

/-- Observations the loop body makes during one iteration: the polled
container status (running), the result of q.get with timeout (none models a
queue.Empty timeout, some x models receiving item x), the three wall clock
reads in milliseconds (line 87, line 91 and line 99 of the source), whether a
KeyboardInterrupt arrives at the top of this iteration, and whether the
put_log_events call made on this iteration (if any) raises. -/
structure IterObs where
  running : Bool
  dequeued : Option (Option LogMessage)
  tStamp : Int
  tCheck : Int
  tReset : Int
  interrupt : Bool
  putFails : Bool
deriving DecidableEq

/-- The loop variables of log_container (lines 69 to 72), plus two ghost
history fields: flushes records the payload of every successful
put_log_events call, consumed records the items taken off the queue. -/
structure AggState where
  death_pills_num : Nat
  total_logs_sent : Nat
  logs_batch : List LogEntry
  last_sent_time : Int
  flushes : List (List LogEntry)
  consumed : List (Option LogMessage)
deriving DecidableEq

/-- Lines 69 to 72: the state right before the while loop starts; t0 is the
time.time() read of line 72 in milliseconds. -/
def initState (t0 : Int) : AggState :=
  { death_pills_num := 0, total_logs_sent := 0, logs_batch := [],
    last_sent_time := t0, flushes := [], consumed := [] }

/-- The while condition of line 74: container.status equals running, or
death_pills_num differs from the number of producers, or logs_batch is not
empty. -/
def loopCond (running : Bool) (s : AggState) : Bool :=
  running || decide (s.death_pills_num ≠ numProducers) ||
    decide (s.logs_batch.length > 0)

/-- Lines 75 to 90: one q.get with timeout.  A timeout leaves the state
unchanged, a None item is a death pill, and a message is stamped with the
current wall clock in milliseconds and appended to logs_batch. -/
def stepReceive (o : IterObs) (s : AggState) : AggState :=
  match o.dequeued with
  | none => s
  | some none =>
      { s with death_pills_num := s.death_pills_num + 1,
               consumed := s.consumed ++ [none] }
  | some (some msg) =>
      { s with logs_batch := s.logs_batch ++ [{ timestamp := o.tStamp, message := msg }],
               consumed := s.consumed ++ [some msg] }

/-- The guard of line 91.  The model clock is in milliseconds, so the source
comparison against SEND_LOGS_INTERVAL seconds becomes a comparison against
SEND_LOGS_INTERVAL * 1000. -/
def flushDue (tCheck : Int) (s : AggState) : Bool :=
  decide (s.logs_batch.length > 0) &&
    decide (tCheck - s.last_sent_time > SEND_LOGS_INTERVAL * 1000)

/-- Lines 92 to 99: the whole pending batch is sent in one put_log_events
call, total_logs_sent grows by its length, logs_batch restarts empty and
last_sent_time is set to a fresh time.time() read (tReset). -/
def flushState (tReset : Int) (s : AggState) : AggState :=
  { s with flushes := s.flushes ++ [s.logs_batch],
           total_logs_sent := s.total_logs_sent + s.logs_batch.length,
           logs_batch := [],
           last_sent_time := tReset }

/-- Lines 75 to 99: one loop body iteration, receive then flush check.  A
failing put_log_events propagates its exception; the error value is the state
at the moment of the raise (the failed payload is still in logs_batch and is
not counted in total_logs_sent or recorded in flushes). -/
def stepBody (o : IterObs) (s : AggState) : Except AggState AggState :=
  if flushDue o.tCheck (stepReceive o s) then
    if o.putFails then Except.error (stepReceive o s)
    else Except.ok (flushState o.tReset (stepReceive o s))
  else Except.ok (stepReceive o s)

/-- How the while loop of lines 74 to 99 can end. -/
inductive LoopOutcome where
  | exited (s : AggState)
  | interrupted (s : AggState)
  | deliveryFailed (s : AggState)
  | outOfSched (s : AggState)
deriving DecidableEq

/-- The while loop of lines 74 to 99, driven by a finite schedule of per
iteration observations.  A KeyboardInterrupt is modelled as arriving at the
top of an iteration.  outOfSched means the schedule ended while the loop was
still live; it is a model artifact (the schedule ran out), not a program
path. -/
def runLoop : List IterObs → AggState → LoopOutcome
  | [], s => LoopOutcome.outOfSched s
  | o :: rest, s =>
    if o.interrupt then LoopOutcome.interrupted s
    else if loopCond o.running s then
      match stepBody o s with
      | Except.ok s1 => runLoop rest s1
      | Except.error s1 => LoopOutcome.deliveryFailed s1
    else LoopOutcome.exited s

/-- The state carried by any loop outcome. -/
def outState : LoopOutcome → AggState
  | LoopOutcome.exited s => s
  | LoopOutcome.interrupted s => s
  | LoopOutcome.deliveryFailed s => s
  | LoopOutcome.outOfSched s => s

/-- Observable result of log_container after the loop: the successful flush
payloads, the total printed by line 108 (none when an exception propagates
before it), whether container.stop and container.kill were invoked, whether
container.remove ran, and whether the function returned normally. -/
structure RunResult where
  flushes : List (List LogEntry)
  reported : Option Nat
  stopRequested : Bool
  killRequested : Bool
  removed : Bool
  exitOk : Bool
deriving DecidableEq

/-- Lines 100 to 109.  On a KeyboardInterrupt the handler calls
container.stop (and container.kill when the operator interrupts again during
the stop), then falls through to container.remove and the summary print; the
handler performs no flush, so logs_batch is dropped.  A delivery error is not
caught: it propagates out of log_container, skipping container.remove and the
summary print.  A normal loop exit falls through to container.remove and the
summary print.  The result is none when the schedule was exhausted before the
loop ended (model artifact). -/
def log_container_run (obss : List IterObs) (secondInterrupt : Bool)
    (s : AggState) : Option RunResult :=
  match runLoop obss s with
  | LoopOutcome.exited s1 =>
      some { flushes := s1.flushes, reported := some s1.total_logs_sent,
             stopRequested := false, killRequested := false,
             removed := true, exitOk := true }
  | LoopOutcome.interrupted s1 =>
      some { flushes := s1.flushes, reported := some s1.total_logs_sent,
             stopRequested := true, killRequested := secondInterrupt,
             removed := true, exitOk := true }
  | LoopOutcome.deliveryFailed s1 =>
      some { flushes := s1.flushes, reported := none,
             stopRequested := false, killRequested := false,
             removed := false, exitOk := false }
  | LoopOutcome.outOfSched _ => none

/-- State of the CloudWatch Logs service as seen by create_log_group and
create_log_stream: the existing group names and the existing (group, stream)
pairs. -/
structure LogsState where
  groups : List String
  streams : List (String × String)
deriving DecidableEq

/-- The exception create_log_group and create_log_stream handle. -/
inductive AwsError where
  | resourceAlreadyExists
deriving DecidableEq

/-- The raw CreateLogGroup service call: it raises
ResourceAlreadyExistsException when the group already exists, otherwise it
creates the group. -/
def aws_create_log_group (st : LogsState) (g : String) :
    Except AwsError LogsState :=
  if g ∈ st.groups then Except.error AwsError.resourceAlreadyExists
  else Except.ok { st with groups := st.groups ++ [g] }

/-- The raw CreateLogStream service call: it raises
ResourceAlreadyExistsException when the stream already exists in the group,
otherwise it creates the stream. -/
def aws_create_log_stream (st : LogsState) (g strm : String) :
    Except AwsError LogsState :=
  if (g, strm) ∈ st.streams then Except.error AwsError.resourceAlreadyExists
  else Except.ok { st with streams := st.streams ++ [(g, strm)] }

/-- Lines 125 to 131: create_log_group absorbs
ResourceAlreadyExistsException with pass. -/
def create_log_group (st : LogsState) (g : String) :
    Except AwsError LogsState :=
  match aws_create_log_group st g with
  | Except.error AwsError.resourceAlreadyExists => Except.ok st
  | r => r

/-- Lines 134 to 143: create_log_stream absorbs
ResourceAlreadyExistsException with pass. -/
def create_log_stream (st : LogsState) (g strm : String) :
    Except AwsError LogsState :=
  match aws_create_log_stream st g strm with
  | Except.error AwsError.resourceAlreadyExists => Except.ok st
  | r => r

/-- An order preserving interleaving of two lists: the possible contents of
the shared FIFO queue when two producer threads each put their own items in
program order. -/
inductive Interleaves {α : Type} : List α → List α → List α → Prop where
  | nil : Interleaves [] [] []
  | left {x : α} {xs ys zs : List α} :
      Interleaves xs ys zs → Interleaves (x :: xs) ys (x :: zs)
  | right {y : α} {xs ys zs : List α} :
      Interleaves xs ys zs → Interleaves xs (y :: ys) (y :: zs)

/-- FIFO discipline of the queue relative to a schedule: the items already
consumed, followed by the items the schedule will dequeue, form an initial
segment of the queue contents qseq. -/
def QueueOk (qseq : List (Option LogMessage)) (obss : List IterObs)
    (s : AggState) : Prop :=
  ∃ rest, qseq = s.consumed ++ obss.filterMap (fun o => o.dequeued) ++ rest

/-- Accounting and content invariant of the loop state: the death pill count
matches the None items consumed, total_logs_sent matches the flushed entry
count, and the flushed entries followed by the pending batch carry exactly
the consumed messages, in order. -/
def Inv (s : AggState) : Prop :=
  s.death_pills_num = s.consumed.count none ∧
  s.total_logs_sent = (s.flushes.map List.length).sum ∧
  (s.flushes.flatten ++ s.logs_batch).map LogEntry.message = s.consumed.reduceOption

/-- Monotonicity of the wall clock reads along a schedule, starting from a
lower bound t: within an iteration the stamp, check and reset reads happen in
that order, and the next iteration starts no earlier than the last reset
read. -/
def clockMono : Int → List IterObs → Bool
  | _, [] => true
  | t, o :: rest =>
    decide (t ≤ o.tStamp) && decide (o.tStamp ≤ o.tCheck) &&
      decide (o.tCheck ≤ o.tReset) && clockMono o.tReset rest

/-- Timestamp ordering invariant of the loop state with clock lower bound t:
every batch already flushed is non decreasing in timestamp, the pending batch
is non decreasing in timestamp, and every pending timestamp is at most t. -/
def BatchMono (t : Int) (s : AggState) : Prop :=
  (∀ b ∈ s.flushes, List.Chain' (fun a b => a ≤ b) (b.map LogEntry.timestamp)) ∧
  List.Chain' (fun a b => a ≤ b) (s.logs_batch.map LogEntry.timestamp) ∧
  ∀ e ∈ s.logs_batch, e.timestamp ≤ t

/-- Concrete observation with all clock reads at time t and no interrupt or
delivery failure; used to build sample schedules. -/
def mkObs (running : Bool) (deq : Option (Option LogMessage)) (t : Int) : IterObs :=
  { running := running, dequeued := deq, tStamp := t, tCheck := t, tReset := t,
    interrupt := false, putFails := false }

/-- Concrete observation at whose iteration a KeyboardInterrupt arrives. -/
def mkObsInterrupt (t : Int) : IterObs :=
  { running := true, dequeued := none, tStamp := t, tCheck := t, tReset := t,
    interrupt := true, putFails := false }

/-- Sample stdout message. -/
def wM1 : LogMessage := mkMessage "stdout" "cmd" "hello"

/-- Sample stderr message. -/
def wM2 : LogMessage := mkMessage "stderr" "cmd" "oops"

/-- Sample queue contents: an interleaving of the stdout producer output for
one line and the stderr producer output for one line. -/
def wQueue : List (Option LogMessage) := [some wM1, some wM2, none, none]

/-- Sample schedule that consumes wQueue, flushes once the interval has
elapsed and then exits the loop. -/
def wSched : List IterObs :=
  [mkObs true (some (some wM1)) 1, mkObs true (some (some wM2)) 2,
   mkObs true (some none) 3, mkObs true (some none) 4,
   mkObs false none 6001, mkObs false none 6002]

/-- The loop state the sample schedule wSched ends in. -/
def wFinal : AggState :=
  { death_pills_num := 2, total_logs_sent := 2, logs_batch := [],
    last_sent_time := 6001,
    flushes := [[{ timestamp := 1, message := wM1 },
                 { timestamp := 2, message := wM2 }]],
    consumed := wQueue }

/-- Sample mid run state: one stdout entry buffered, nothing flushed yet. -/
def wMid : AggState :=
  { death_pills_num := 0, total_logs_sent := 0,
    logs_batch := [{ timestamp := 1, message := wM1 }], last_sent_time := 0,
    flushes := [], consumed := [some wM1] }

/-- Sample schedule that buffers one line and is then interrupted. -/
def wSchedInterrupt : List IterObs :=
  [mkObs true (some (some wM1)) 1, mkObsInterrupt 2]

/-- Sample observation whose flush attempt fails: a message is received, the
flush interval has elapsed, and put_log_events raises. -/
def wObsFail : IterObs :=
  { running := true, dequeued := some (some wM1), tStamp := 1, tCheck := 6001,
    tReset := 6001, interrupt := false, putFails := true }

/-- Sample schedule ending in a failed delivery. -/
def wSchedFail : List IterObs := [wObsFail]

/-- Sample state in which the loop exit condition holds: both death pills
received and an empty batch. -/
def wExitState : AggState :=
  { death_pills_num := 2, total_logs_sent := 0, logs_batch := [],
    last_sent_time := 0, flushes := [], consumed := [none, none] }

/-- The run result of the failed delivery schedule wSchedFail. -/
def wResFail : RunResult :=
  { flushes := [], reported := none, stopRequested := false,
    killRequested := false, removed := false, exitOk := false }

/-- The run result of the completed sample schedule wSched. -/
def wRes : RunResult :=
  { flushes := [[{ timestamp := 1, message := wM1 },
                 { timestamp := 2, message := wM2 }]],
    reported := some 2, stopRequested := false, killRequested := false,
    removed := true, exitOk := true }

theorem interleaves_length {α : Type} {xs ys zs : List α}
    (h : Interleaves xs ys zs) : zs.length = xs.length + ys.length := by
  induction h with
  | nil => rfl
  | left h ih => simp only [List.length_cons, ih]; omega
  | right h ih => simp only [List.length_cons, ih]; omega

theorem interleaves_symm {α : Type} {xs ys zs : List α}
    (h : Interleaves xs ys zs) : Interleaves ys xs zs := by
  induction h with
  | nil => exact Interleaves.nil
  | left _ ih => exact Interleaves.right ih
  | right _ ih => exact Interleaves.left ih

theorem interleaves_count {α : Type} [BEq α] (a : α) {xs ys zs : List α}
    (h : Interleaves xs ys zs) : zs.count a = xs.count a + ys.count a := by
  induction h with
  | nil => rfl
  | left h ih => simp only [List.count_cons, ih]; split <;> omega
  | right h ih => simp only [List.count_cons, ih]; split <;> omega

theorem interleaves_eq_nil {α : Type} {xs ys : List α}
    (h : Interleaves xs ys []) : xs = [] ∧ ys = [] := by
  cases h
  exact ⟨rfl, rfl⟩

theorem interleaves_getLast {α : Type} {xs ys zs : List α}
    (h : Interleaves xs ys zs) :
    zs = [] ∨ zs.getLast? = xs.getLast? ∨ zs.getLast? = ys.getLast? := by
  induction h with
  | nil => exact Or.inl rfl
  | @left x xs ys zs h ih =>
      refine Or.inr ?_
      cases zs with
      | nil =>
          obtain ⟨hx, hy⟩ := interleaves_eq_nil h
          subst hx
          exact Or.inl rfl
      | cons z zs =>
          rcases ih with h0 | h1 | h1
          · exact absurd h0 (List.cons_ne_nil z zs)
          · cases xs with
            | nil => simp at h1
            | cons x1 xs1 =>
                refine Or.inl ?_
                rw [List.getLast?_cons_cons, h1, List.getLast?_cons_cons]
          · refine Or.inr ?_
            rw [List.getLast?_cons_cons, h1]
  | @right y xs ys zs h ih =>
      refine Or.inr ?_
      cases zs with
      | nil =>
          obtain ⟨hx, hy⟩ := interleaves_eq_nil h
          subst hy
          exact Or.inr rfl
      | cons z zs =>
          rcases ih with h0 | h1 | h1
          · exact absurd h0 (List.cons_ne_nil z zs)
          · refine Or.inl ?_
            rw [List.getLast?_cons_cons, h1]
          · cases ys with
            | nil => simp at h1
            | cons y1 ys1 =>
                refine Or.inr ?_
                rw [List.getLast?_cons_cons, h1, List.getLast?_cons_cons]

theorem interleaves_sentinel_last {α : Type} (a : α) {A B q : List α}
    (h : Interleaves (A ++ [a]) (B ++ [a]) q) : q.getLast? = some a := by
  rcases interleaves_getLast h with h0 | h1 | h1
  · subst h0
    obtain ⟨hx, _⟩ := interleaves_eq_nil h
    simp at hx
  · rw [h1, List.getLast?_concat]
  · rw [h1, List.getLast?_concat]

theorem interleaves_reduceOption {β : Type} {xs ys zs : List (Option β)}
    (h : Interleaves xs ys zs) :
    Interleaves xs.reduceOption ys.reduceOption zs.reduceOption := by
  induction h with
  | nil => exact Interleaves.nil
  | @left x xs ys zs h ih =>
      cases x with
      | none => simpa only [List.reduceOption_cons_of_none] using ih
      | some a =>
          simp only [List.reduceOption_cons_of_some]
          exact Interleaves.left ih
  | @right y xs ys zs h ih =>
      cases y with
      | none => simpa only [List.reduceOption_cons_of_none] using ih
      | some a =>
          simp only [List.reduceOption_cons_of_some]
          exact Interleaves.right ih

theorem interleaves_filter {α : Type} (p : α → Bool) {xs ys zs : List α}
    (h : Interleaves xs ys zs) (hx : ∀ a ∈ xs, p a = true)
    (hy : ∀ a ∈ ys, p a = false) : zs.filter p = xs := by
  induction h with
  | nil => rfl
  | @left x xs ys zs h ih =>
      have hpx : p x = true := hx x (List.mem_cons_self x xs)
      simp only [List.filter_cons, hpx, if_true]
      rw [ih (fun a ha => hx a (List.mem_cons_of_mem x ha)) hy]
  | @right y xs ys zs h ih =>
      have hpy : p y = false := hy y (List.mem_cons_self y ys)
      simp only [List.filter_cons, hpy, Bool.false_eq_true, if_false]
      exact ih hx (fun a ha => hy a (List.mem_cons_of_mem y ha))

theorem eq_nil_of_count_suffix {α : Type} [BEq α] [LawfulBEq α] {q c r : List α}
    {a : α} (hq : q = c ++ r) (hlast : q.getLast? = some a)
    (hcnt : r.count a = 0) : r = [] := by
  cases r with
  | nil => rfl
  | cons x r =>
      exfalso
      have h1 : q.getLast? = (x :: r).getLast? := by
        rw [hq]
        exact List.getLast?_append_of_ne_nil c (List.cons_ne_nil x r)
      have h2 : (x :: r).getLast? = some a := by rw [← h1, hlast]
      have h3 : a ∈ x :: r := List.mem_of_getLast?_eq_some h2
      exact (List.count_eq_zero.mp hcnt) h3

theorem count_none_map_some {β : Type} [BEq β] [LawfulBEq β] (l : List β) :
    ((l.map some).count (none : Option β)) = 0 := by
  rw [List.count_eq_zero]
  simp

theorem reduceOption_map_some {β : Type} (l : List β) :
    (l.map some).reduceOption = l := by
  induction l with
  | nil => rfl
  | cons x l ih => simp only [List.map_cons, List.reduceOption_cons_of_some, ih]

theorem produce_eq (lines : List String) (sn c : String) :
    produce_log_messages lines false sn c =
      (lines.map fun line => some (mkMessage sn c line)) ++ [none] := rfl

theorem produce_count_none (lines : List String) (sn c : String) :
    (produce_log_messages lines false sn c).count (none : Option LogMessage) = 1 := by
  rw [produce_eq, List.count_append]
  have h0 : (lines.map fun line => some (mkMessage sn c line)).count
      (none : Option LogMessage) = 0 := by
    rw [List.count_eq_zero]
    simp
  rw [h0]
  rfl

theorem produce_reduceOption (lines : List String) (sn c : String) :
    (produce_log_messages lines false sn c).reduceOption =
      lines.map (mkMessage sn c) := by
  rw [produce_eq]
  rw [show (lines.map fun line => some (mkMessage sn c line)) =
        (lines.map (mkMessage sn c)).map some from (List.map_map some (mkMessage sn c) lines).symm]
  rw [List.reduceOption_append, reduceOption_map_some]
  simp [List.reduceOption]

theorem stepBody_ok_cases (o : IterObs) (s s1 : AggState)
    (h : stepBody o s = Except.ok s1) :
    s1 = stepReceive o s ∨ s1 = flushState o.tReset (stepReceive o s) := by
  unfold stepBody at h
  split at h
  · split at h
    · cases h
    · exact Or.inr (Except.ok.inj h).symm
  · exact Or.inl (Except.ok.inj h).symm

theorem stepBody_error_eq (o : IterObs) (s s1 : AggState)
    (h : stepBody o s = Except.error s1) : s1 = stepReceive o s := by
  unfold stepBody at h
  split at h
  · split at h
    · exact (Except.error.inj h).symm
    · cases h
  · cases h

theorem inv_stepReceive (o : IterObs) (s : AggState) (h : Inv s) :
    Inv (stepReceive o s) := by
  obtain ⟨h1, h2, h3⟩ := h
  cases hd : o.dequeued with
  | none =>
      simp only [stepReceive, hd]
      exact ⟨h1, h2, h3⟩
  | some x =>
      cases x with
      | none =>
          simp only [stepReceive, hd]
          refine ⟨?_, h2, ?_⟩
          · show s.death_pills_num + 1 = (s.consumed ++ [none]).count none
            rw [List.count_append, h1]
            simp
          · show (s.flushes.flatten ++ s.logs_batch).map LogEntry.message =
              (s.consumed ++ [none]).reduceOption
            rw [List.reduceOption_append]
            simpa using h3
      | some m =>
          simp only [stepReceive, hd]
          refine ⟨?_, h2, ?_⟩
          · show s.death_pills_num = (s.consumed ++ [some m]).count none
            rw [List.count_append, h1]
            simp [List.count_singleton]
          · show (s.flushes.flatten ++
                (s.logs_batch ++ [({ timestamp := o.tStamp, message := m } : LogEntry)])).map
                  LogEntry.message =
              (s.consumed ++ [some m]).reduceOption
            rw [← List.append_assoc, List.map_append, h3,
              List.reduceOption_append]
            simp [List.reduceOption]

theorem inv_flushState (t : Int) (s : AggState) (h : Inv s) :
    Inv (flushState t s) := by
  obtain ⟨h1, h2, h3⟩ := h
  refine ⟨h1, ?_, ?_⟩
  · simp only [flushState, List.map_append, List.sum_append, h2]
    simp
  · simp only [flushState, List.flatten_append]
    simpa using h3

theorem queueOk_step (qseq : List (Option LogMessage)) (o : IterObs)
    (obss : List IterObs) (s : AggState) (h : QueueOk qseq (o :: obss) s) :
    QueueOk qseq obss (stepReceive o s) := by
  obtain ⟨r, hr⟩ := h
  simp only [List.filterMap_cons] at hr
  cases hd : o.dequeued with
  | none =>
      refine ⟨r, ?_⟩
      rw [hd] at hr
      simpa only [stepReceive, hd] using hr
  | some x =>
      rw [hd] at hr
      refine ⟨r, ?_⟩
      cases x with
      | none =>
          simp only [stepReceive, hd]
          rw [hr]
          simp [List.append_assoc]
      | some m =>
          simp only [stepReceive, hd]
          rw [hr]
          simp [List.append_assoc]

theorem runLoop_inv (qseq : List (Option LogMessage)) :
    ∀ (obss : List IterObs) (s : AggState), Inv s → QueueOk qseq obss s →
      Inv (outState (runLoop obss s)) ∧
      ∃ r, qseq = (outState (runLoop obss s)).consumed ++ r := by
  intro obss
  induction obss with
  | nil =>
      intro s h hq
      obtain ⟨r, hr⟩ := hq
      refine ⟨h, ⟨r, ?_⟩⟩
      simpa using hr
  | cons o obss ih =>
      intro s h hq
      obtain ⟨r0, hr0⟩ := hq
      simp only [runLoop]
      cases hI : o.interrupt with
      | true =>
          simp only [if_true]
          refine ⟨h, ⟨(o :: obss).filterMap (fun o => o.dequeued) ++ r0, ?_⟩⟩
          rw [hr0, List.append_assoc]
          rfl
      | false =>
          simp only [Bool.false_eq_true, if_false]
          cases hC : loopCond o.running s with
          | false =>
              simp only [Bool.false_eq_true, if_false]
              refine ⟨h, ⟨(o :: obss).filterMap (fun o => o.dequeued) ++ r0, ?_⟩⟩
              rw [hr0, List.append_assoc]
              rfl
          | true =>
              simp only [if_true]
              have hq1 : QueueOk qseq obss (stepReceive o s) :=
                queueOk_step qseq o obss s ⟨r0, hr0⟩
              cases hsb : stepBody o s with
              | ok s1 =>
                  rcases stepBody_ok_cases o s s1 hsb with h1 | h1
                  · subst h1
                    exact ih (stepReceive o s) (inv_stepReceive o s h) hq1
                  · subst h1
                    exact ih _ (inv_flushState o.tReset _ (inv_stepReceive o s h)) hq1
              | error s1 =>
                  have h1 := stepBody_error_eq o s s1 hsb
                  subst h1
                  obtain ⟨r1, hr1⟩ := hq1
                  refine ⟨inv_stepReceive o s h, ?_⟩
                  exact ⟨obss.filterMap (fun o => o.dequeued) ++ r1,
                    by rw [hr1, List.append_assoc]; rfl⟩

theorem runLoop_exited_cond :
    ∀ (obss : List IterObs) (s s1 : AggState),
      runLoop obss s = LoopOutcome.exited s1 →
      s1.death_pills_num = numProducers ∧ s1.logs_batch = [] := by
  intro obss
  induction obss with
  | nil =>
      intro s s1 h
      simp [runLoop] at h
  | cons o obss ih =>
      intro s s1 h
      simp only [runLoop] at h
      cases hI : o.interrupt with
      | true => rw [hI] at h; simp at h
      | false =>
          rw [hI] at h
          simp only [Bool.false_eq_true, if_false] at h
          cases hC : loopCond o.running s with
          | true =>
              rw [hC] at h
              simp only [if_true] at h
              cases hsb : stepBody o s with
              | ok s2 =>
                  rw [hsb] at h
                  exact ih s2 s1 h
              | error s2 => rw [hsb] at h; simp at h
          | false =>
              rw [hC] at h
              simp only [Bool.false_eq_true, if_false] at h
              have hs : s = s1 := LoopOutcome.exited.inj h
              subst hs
              simp only [loopCond, Bool.or_eq_false_iff, decide_eq_false_iff_not,
                Decidable.not_not, not_lt, Nat.le_zero] at hC
              obtain ⟨⟨_, hpills⟩, hlen⟩ := hC
              exact ⟨hpills, List.length_eq_zero.mp hlen⟩

theorem stepReceive_sent (o : IterObs) (s : AggState) :
    (stepReceive o s).total_logs_sent = s.total_logs_sent ∧
    (stepReceive o s).flushes = s.flushes := by
  cases hd : o.dequeued with
  | none => simp [stepReceive, hd]
  | some x => cases x <;> simp [stepReceive, hd]

theorem acct_stepReceive (o : IterObs) (s : AggState)
    (h : s.total_logs_sent = (s.flushes.map List.length).sum) :
    (stepReceive o s).total_logs_sent =
      ((stepReceive o s).flushes.map List.length).sum := by
  obtain ⟨h1, h2⟩ := stepReceive_sent o s
  rw [h1, h2, h]

theorem acct_flushState (t : Int) (s : AggState)
    (h : s.total_logs_sent = (s.flushes.map List.length).sum) :
    (flushState t s).total_logs_sent =
      ((flushState t s).flushes.map List.length).sum := by
  show s.total_logs_sent + s.logs_batch.length =
    ((s.flushes ++ [s.logs_batch]).map List.length).sum
  rw [List.map_append, List.sum_append, h]
  simp

theorem runLoop_accounting :
    ∀ (obss : List IterObs) (s : AggState),
      s.total_logs_sent = (s.flushes.map List.length).sum →
      (outState (runLoop obss s)).total_logs_sent =
        ((outState (runLoop obss s)).flushes.map List.length).sum := by
  intro obss
  induction obss with
  | nil => intro s h; exact h
  | cons o obss ih =>
      intro s h
      simp only [runLoop]
      cases hI : o.interrupt with
      | true => simpa only [if_true] using h
      | false =>
          simp only [Bool.false_eq_true, if_false]
          cases hC : loopCond o.running s with
          | false => simpa only [Bool.false_eq_true, if_false] using h
          | true =>
              simp only [if_true]
              cases hsb : stepBody o s with
              | ok s1 =>
                  rcases stepBody_ok_cases o s s1 hsb with h1 | h1
                  · subst h1
                    exact ih _ (acct_stepReceive o s h)
                  · subst h1
                    exact ih _ (acct_flushState o.tReset _ (acct_stepReceive o s h))
              | error s1 =>
                  have h1 := stepBody_error_eq o s s1 hsb
                  subst h1
                  exact acct_stepReceive o s h

theorem chain_le_snoc (l : List Int) (a : Int)
    (h : List.Chain' (fun x y => x ≤ y) l) (ha : ∀ x ∈ l, x ≤ a) :
    List.Chain' (fun x y => x ≤ y) (l ++ [a]) := by
  rw [List.chain'_append]
  refine ⟨h, List.chain'_singleton a, ?_⟩
  intro x hx y hy
  have hxl : x ∈ l :=
    List.mem_of_getLast?_eq_some (Option.mem_def.mp hx)
  have hya : a = y := by simpa using hy
  exact hya ▸ ha x hxl

theorem batchMono_mono {t t2 : Int} (s : AggState) (h : BatchMono t s)
    (hle : t ≤ t2) : BatchMono t2 s := by
  obtain ⟨h1, h2, h3⟩ := h
  exact ⟨h1, h2, fun e he => le_trans (h3 e he) hle⟩

theorem batchMono_stepReceive (o : IterObs) (s : AggState) {t : Int}
    (h : BatchMono t s) (ht : t ≤ o.tStamp) :
    BatchMono o.tStamp (stepReceive o s) := by
  obtain ⟨h1, h2, h3⟩ := h
  cases hd : o.dequeued with
  | none =>
      simp only [stepReceive, hd]
      exact ⟨h1, h2, fun e he => le_trans (h3 e he) ht⟩
  | some x =>
      cases x with
      | none =>
          simp only [stepReceive, hd]
          exact ⟨h1, h2, fun e he => le_trans (h3 e he) ht⟩
      | some m =>
          simp only [stepReceive, hd]
          refine ⟨h1, ?_, ?_⟩
          · show List.Chain' (fun a b => a ≤ b)
              ((s.logs_batch ++
                [({ timestamp := o.tStamp, message := m } : LogEntry)]).map
                  LogEntry.timestamp)
            rw [List.map_append]
            refine chain_le_snoc _ _ h2 ?_
            intro x hx
            obtain ⟨e, he, rfl⟩ := List.mem_map.mp hx
            exact le_trans (h3 e he) ht
          · intro e he
            rcases List.mem_append.mp he with he | he
            · exact le_trans (h3 e he) ht
            · simp only [List.mem_singleton] at he
              subst he
              exact le_refl _

theorem batchMono_flushState (t t2 : Int) (s : AggState)
    (h : BatchMono t s) : BatchMono t2 (flushState t2 s) := by
  obtain ⟨h1, h2, h3⟩ := h
  refine ⟨?_, ?_, ?_⟩
  · intro b hb
    have hb2 : b ∈ s.flushes ++ [s.logs_batch] := hb
    rcases List.mem_append.mp hb2 with hb3 | hb3
    · exact h1 b hb3
    · simp only [List.mem_singleton] at hb3
      subst hb3
      exact h2
  · show List.Chain' (fun a b => a ≤ b) (([] : List LogEntry).map LogEntry.timestamp)
    simp
  · intro e he
    simp only [flushState] at he
    exact absurd he (List.not_mem_nil e)

theorem runLoop_batchMono :
    ∀ (obss : List IterObs) (t : Int) (s : AggState),
      clockMono t obss = true → BatchMono t s →
      ∃ t2, BatchMono t2 (outState (runLoop obss s)) := by
  intro obss
  induction obss with
  | nil => intro t s _ h; exact ⟨t, h⟩
  | cons o obss ih =>
      intro t s hc h
      simp only [clockMono, Bool.and_eq_true, decide_eq_true_eq] at hc
      obtain ⟨⟨⟨ht1, ht2⟩, ht3⟩, hc2⟩ := hc
      simp only [runLoop]
      cases hI : o.interrupt with
      | true => exact ⟨t, h⟩
      | false =>
          simp only [Bool.false_eq_true, if_false]
          cases hC : loopCond o.running s with
          | false => exact ⟨t, h⟩
          | true =>
              simp only [if_true]
              have hrecv : BatchMono o.tStamp (stepReceive o s) :=
                batchMono_stepReceive o s h ht1
              have hrecv2 : BatchMono o.tReset (stepReceive o s) :=
                batchMono_mono _ hrecv (le_trans ht2 ht3)
              cases hsb : stepBody o s with
              | ok s1 =>
                  rcases stepBody_ok_cases o s s1 hsb with h1 | h1
                  · subst h1
                    exact ih o.tReset _ hc2 hrecv2
                  · subst h1
                    exact ih o.tReset _ hc2
                      (batchMono_flushState o.tStamp o.tReset _ hrecv)
              | error s1 =>
                  have h1 := stepBody_error_eq o s s1 hsb
                  subst h1
                  exact ⟨o.tStamp, hrecv⟩

theorem runLoop_complete (lines1 lines2 : List String) (cmd : String)
    (qseq : List (Option LogMessage)) (obss : List IterObs) (t0 : Int)
    (s1 : AggState)
    (hint : Interleaves (produce_log_messages lines1 false "stdout" cmd)
      (produce_log_messages lines2 false "stderr" cmd) qseq)
    (hfifo : ∃ rest, qseq = obss.filterMap (fun o => o.dequeued) ++ rest)
    (hrun : runLoop obss (initState t0) = LoopOutcome.exited s1) :
    s1.logs_batch = [] ∧ s1.death_pills_num = numProducers ∧
    s1.total_logs_sent = (s1.flushes.map List.length).sum ∧
    s1.flushes.flatten.map LogEntry.message = qseq.reduceOption ∧
    Interleaves (lines1.map (mkMessage "stdout" cmd))
      (lines2.map (mkMessage "stderr" cmd)) qseq.reduceOption := by
  have hinv0 : Inv (initState t0) := ⟨rfl, rfl, rfl⟩
  have hq0 : QueueOk qseq obss (initState t0) := by
    obtain ⟨rest, hrest⟩ := hfifo
    exact ⟨rest, by simpa [initState, QueueOk] using hrest⟩
  have hmain := runLoop_inv qseq obss (initState t0) hinv0 hq0
  rw [hrun] at hmain
  obtain ⟨hinv, ⟨r, hr⟩⟩ := hmain
  have hinv1 : Inv s1 := hinv
  have hr1 : qseq = s1.consumed ++ r := hr
  obtain ⟨hpills, hbatch⟩ := runLoop_exited_cond obss (initState t0) s1 hrun
  obtain ⟨hc1, hc2, hc3⟩ := hinv1
  have hqcount : qseq.count (none : Option LogMessage) = 2 := by
    rw [interleaves_count none hint, produce_count_none, produce_count_none]
  have hccount : s1.consumed.count (none : Option LogMessage) = 2 := by
    rw [← hc1, hpills]
    rfl
  have hrcount : r.count (none : Option LogMessage) = 0 := by
    have h5 : (s1.consumed ++ r).count (none : Option LogMessage) = 2 := by
      rw [← hr1]
      exact hqcount
    rw [List.count_append, hccount] at h5
    omega
  have hlast : qseq.getLast? = some none := by
    rw [produce_eq, produce_eq] at hint
    exact interleaves_sentinel_last none hint
  have hrnil : r = [] := eq_nil_of_count_suffix hr1 hlast hrcount
  subst hrnil
  have hcons : s1.consumed = qseq := by rw [hr1, List.append_nil]
  have hmsgs : s1.flushes.flatten.map LogEntry.message = qseq.reduceOption := by
    rw [hbatch, List.append_nil] at hc3
    rw [hc3, hcons]
  have hred : Interleaves (lines1.map (mkMessage "stdout" cmd))
      (lines2.map (mkMessage "stderr" cmd)) qseq.reduceOption := by
    have h6 := interleaves_reduceOption hint
    rwa [produce_reduceOption, produce_reduceOption] at h6
  exact ⟨hbatch, hpills, hc2, hmsgs, hred⟩

/-- Claim C1: the Aggregator loop continues exactly while the triple
condition holds (process running, or fewer sentinels than readers, or a non
empty batch), so a normal loop exit implies every sentinel was received and
the pending batch is empty; moreover the while condition of the source,
which compares the pill count with the reader count using inequality, agrees
with the spec formulation using less-than whenever the pill count is at most
the reader count. -/
theorem C1_loop_exit_condition :
    (∀ (obss : List IterObs) (s s1 : AggState),
        runLoop obss s = LoopOutcome.exited s1 →
        s1.death_pills_num = numProducers ∧ s1.logs_batch = []) ∧
    (∀ (s : AggState) (running : Bool), s.death_pills_num ≤ numProducers →
        (loopCond running s = true ↔
          (running = true ∨ s.death_pills_num < numProducers ∨
            s.logs_batch ≠ []))) := by
  constructor
  · exact runLoop_exited_cond
  · intro s running hle
    simp only [loopCond, Bool.or_eq_true, decide_eq_true_eq]
    constructor
    · rintro ((h | h) | h)
      · exact Or.inl h
      · exact Or.inr (Or.inl (lt_of_le_of_ne hle h))
      · refine Or.inr (Or.inr ?_)
        intro hnil
        rw [hnil] at h
        simp at h
    · rintro (h | h | h)
      · exact Or.inl (Or.inl h)
      · exact Or.inl (Or.inr (Nat.ne_of_lt h))
      · refine Or.inr ?_
        have hne : s.logs_batch.length ≠ 0 :=
          fun h0 => h (List.length_eq_zero.mp h0)
        omega

theorem C1_witness :
    (wExitState.death_pills_num = numProducers ∧ wExitState.logs_batch = []) ∧
    (loopCond false wExitState = true ↔
      (false = true ∨ wExitState.death_pills_num < numProducers ∨
        wExitState.logs_batch ≠ [])) :=
  ⟨C1_loop_exit_condition.1 [mkObs false none 0] wExitState wExitState
      (by decide),
   C1_loop_exit_condition.2 wExitState false (by decide)⟩

/-- Claim C2: for a run that exits the loop normally, the number of lines
read by the two readers equals the number of entries across all flushed
batches, the reported total matches it, and the flushed entries are exactly
the consumed queue messages in order. -/
theorem C2_no_data_loss (lines1 lines2 : List String) (cmd : String)
    (qseq : List (Option LogMessage)) (obss : List IterObs) (t0 : Int)
    (s1 : AggState)
    (hint : Interleaves (produce_log_messages lines1 false "stdout" cmd)
      (produce_log_messages lines2 false "stderr" cmd) qseq)
    (hfifo : ∃ rest, qseq = obss.filterMap (fun o => o.dequeued) ++ rest)
    (hrun : runLoop obss (initState t0) = LoopOutcome.exited s1) :
    (s1.flushes.map List.length).sum = lines1.length + lines2.length ∧
    s1.total_logs_sent = lines1.length + lines2.length ∧
    s1.logs_batch = [] ∧
    s1.flushes.flatten.map LogEntry.message = qseq.reduceOption := by
  obtain ⟨hbatch, hpills, htot, hmsgs, hred⟩ :=
    runLoop_complete lines1 lines2 cmd qseq obss t0 s1 hint hfifo hrun
  have hlen : (s1.flushes.map List.length).sum = qseq.reduceOption.length := by
    have h7 := congrArg List.length hmsgs
    rw [List.length_map, List.length_flatten] at h7
    exact h7
  have hql : qseq.reduceOption.length = lines1.length + lines2.length := by
    rw [interleaves_length hred]
    simp
  exact ⟨hlen.trans hql, by rw [htot, hlen, hql], hbatch, hmsgs⟩

theorem wQueue_interleaves :
    Interleaves (produce_log_messages ["hello"] false "stdout" "cmd")
      (produce_log_messages ["oops"] false "stderr" "cmd") wQueue := by
  have e1 : produce_log_messages ["hello"] false "stdout" "cmd" =
      [some wM1, none] := rfl
  have e2 : produce_log_messages ["oops"] false "stderr" "cmd" =
      [some wM2, none] := rfl
  rw [e1, e2, show wQueue = [some wM1, some wM2, none, none] from rfl]
  exact Interleaves.left (Interleaves.right
    (Interleaves.left (Interleaves.right Interleaves.nil)))

theorem wQueue_fifo :
    ∃ rest, wQueue = wSched.filterMap (fun o => o.dequeued) ++ rest :=
  ⟨[], by decide⟩

theorem C2_witness :
    (wFinal.flushes.map List.length).sum =
      (["hello"] : List String).length + (["oops"] : List String).length ∧
    wFinal.total_logs_sent =
      (["hello"] : List String).length + (["oops"] : List String).length ∧
    wFinal.logs_batch = [] ∧
    wFinal.flushes.flatten.map LogEntry.message = wQueue.reduceOption :=
  C2_no_data_loss ["hello"] ["oops"] "cmd" wQueue wSched 0 wFinal
    wQueue_interleaves wQueue_fifo (by decide)

/-- Claim C3: when the wall clock reads are non decreasing along the run,
every batch handed to put_log_events has non decreasing timestamps in append
order, and so does the pending batch; the timestamps are constructed by the
single consumer loop at dequeue time. -/
theorem C3_timestamps_monotone (obss : List IterObs) (t0 : Int)
    (hclock : clockMono t0 obss = true) :
    (∀ b ∈ (outState (runLoop obss (initState t0))).flushes,
        List.Chain' (fun a b => a ≤ b) (b.map LogEntry.timestamp)) ∧
    List.Chain' (fun a b => a ≤ b)
      ((outState (runLoop obss (initState t0))).logs_batch.map
        LogEntry.timestamp) := by
  have h0 : BatchMono t0 (initState t0) := by
    refine ⟨fun b hb => absurd hb (List.not_mem_nil b), ?_,
      fun e he => absurd he (List.not_mem_nil e)⟩
    exact List.chain'_nil
  obtain ⟨t2, h1, h2, _⟩ := runLoop_batchMono obss t0 (initState t0) hclock h0
  exact ⟨h1, h2⟩

theorem C3_witness :
    List.Chain' (fun a b => a ≤ b)
      (([{ timestamp := 1, message := wM1 },
         { timestamp := 2, message := wM2 }] : List LogEntry).map
        LogEntry.timestamp) :=
  (C3_timestamps_monotone wSched 0 (by decide)).1
    [{ timestamp := 1, message := wM1 }, { timestamp := 2, message := wM2 }]
    (by decide)

/-- Claim C4: on one loop iteration a flush happens exactly when the batch
after the receive step is non empty and more than SEND_LOGS_INTERVAL has
elapsed since the last flush; on a flush the whole batch is passed to
put_log_events in one call, the sent total grows by its length, the batch
restarts empty and the last sent time resets to the fresh clock read; there
is no size based trigger. -/
theorem C4_flush_rule (o : IterObs) (s s1 : AggState)
    (hput : o.putFails = false) (hs1 : s1 = stepReceive o s) :
    (s1.logs_batch ≠ [] ∧
        o.tCheck - s1.last_sent_time > SEND_LOGS_INTERVAL * 1000 →
      stepBody o s = Except.ok (flushState o.tReset s1)) ∧
    (¬(s1.logs_batch ≠ [] ∧
        o.tCheck - s1.last_sent_time > SEND_LOGS_INTERVAL * 1000) →
      stepBody o s = Except.ok s1) ∧
    (flushState o.tReset s1).flushes = s1.flushes ++ [s1.logs_batch] ∧
    (flushState o.tReset s1).total_logs_sent =
      s1.total_logs_sent + s1.logs_batch.length ∧
    (flushState o.tReset s1).logs_batch = [] ∧
    (flushState o.tReset s1).last_sent_time = o.tReset ∧
    (flushState o.tReset s1).flushes ≠ s1.flushes := by
  subst hs1
  refine ⟨?_, ?_, rfl, rfl, rfl, rfl, ?_⟩
  · rintro ⟨hne, hgt⟩
    have hdue : flushDue o.tCheck (stepReceive o s) = true := by
      simp only [flushDue, Bool.and_eq_true, decide_eq_true_eq]
      exact ⟨List.length_pos.mpr hne, hgt⟩
    simp [stepBody, hdue, hput]
  · intro hn
    cases hdue : flushDue o.tCheck (stepReceive o s) with
    | false => simp [stepBody, hdue]
    | true =>
        exfalso
        simp only [flushDue, Bool.and_eq_true, decide_eq_true_eq] at hdue
        exact hn ⟨List.ne_nil_of_length_pos hdue.1, hdue.2⟩
  · intro heq
    have h8 := congrArg List.length heq
    simp [flushState] at h8

theorem C4_witness :
    stepBody (mkObs true none 6001) wMid =
      Except.ok (flushState (mkObs true none 6001).tReset
        (stepReceive (mkObs true none 6001) wMid)) :=
  (C4_flush_rule (mkObs true none 6001) wMid
      (stepReceive (mkObs true none 6001) wMid) rfl rfl).1 (by decide)

/-- Claim C5 as amended: when a KeyboardInterrupt ends the loop, the
Controller requests the container stop (and kill when the operator
interrupts again), removes the container, prints the summary and returns
normally, but performs no final drain or flush: only the batches flushed
before the interrupt were delivered, and whatever is still buffered in
logs_batch is dropped. -/
theorem C5_interrupt_no_final_flush (obss : List IterObs) (si : Bool)
    (s s1 : AggState) (h : runLoop obss s = LoopOutcome.interrupted s1) :
    log_container_run obss si s =
      some { flushes := s1.flushes, reported := some s1.total_logs_sent,
             stopRequested := true, killRequested := si,
             removed := true, exitOk := true } := by
  simp [log_container_run, h]

theorem C5_witness :
    log_container_run wSchedInterrupt true (initState 0) =
      some { flushes := [], reported := some 0, stopRequested := true,
             killRequested := true, removed := true, exitOk := true } :=
  C5_interrupt_no_final_flush wSchedInterrupt true (initState 0) wMid
    (by decide)

/-- Counterexample to claim C5 as stated: a run in which one line is
buffered and the operator then interrupts ends with stop requested and exit
code 0, but with no flush at all, so the buffered entry is not delivered
even though the claim promises a final flush containing it. -/
theorem C5_counterexample :
    log_container_run wSchedInterrupt false (initState 0) =
      some { flushes := [], reported := some 0, stopRequested := true,
             killRequested := false, removed := true, exitOk := true } ∧
    (outState (runLoop wSchedInterrupt (initState 0))).logs_batch =
      [{ timestamp := 1, message := wM1 }] := by
  decide

/-- Claim C6 as amended: a reader that reaches end of stream without error
enqueues exactly one sentinel, after all of its data envelopes; but a read
error aborts the reader before the sentinel line, so in that case no
sentinel is enqueued at all (the claim as stated, which promises a sentinel
even on read errors, is false). -/
theorem C6_sentinel (lines : List String) (sn c : String) :
    (produce_log_messages lines false sn c).count
        (none : Option LogMessage) = 1 ∧
    (produce_log_messages lines false sn c).getLast? = some none ∧
    (produce_log_messages lines false sn c).reduceOption =
      lines.map (mkMessage sn c) ∧
    (produce_log_messages lines true sn c).count
        (none : Option LogMessage) = 0 := by
  refine ⟨produce_count_none lines sn c, ?_,
    produce_reduceOption lines sn c, ?_⟩
  · rw [produce_eq, List.getLast?_concat]
  · show (lines.map fun line => some (mkMessage sn c line)).count
        (none : Option LogMessage) = 0
    rw [List.count_eq_zero]
    simp

/-- Counterexample to claim C6 as stated: a stream that yields one line and
then raises a read error makes produce_log_messages enqueue the one message
and no sentinel, so the Aggregator would wait for a sentinel that never
comes. -/
theorem C6_counterexample :
    (produce_log_messages ["a"] true "stdout" "cmd").count
        (none : Option LogMessage) = 0 ∧
    produce_log_messages ["a"] true "stdout" "cmd" =
      [some (mkMessage "stdout" "cmd" "a")] := by
  decide

/-- Claim C7 as amended: a failing put_log_events call is fatal with no in
process retry, total_logs_sent counts exactly the entries of the earlier
successful flushes (no double counting), but the count is not reported: the
exception propagates out of log_container before the summary print, so the
run ends without the Sent N logs line (and without container.remove). -/
theorem C7_delivery_failure (obss : List IterObs) (si : Bool) (t0 : Int)
    (s1 : AggState)
    (h : runLoop obss (initState t0) = LoopOutcome.deliveryFailed s1) :
    log_container_run obss si (initState t0) =
      some { flushes := s1.flushes, reported := none, stopRequested := false,
             killRequested := false, removed := false, exitOk := false } ∧
    s1.total_logs_sent = (s1.flushes.map List.length).sum := by
  constructor
  · simp [log_container_run, h]
  · have h9 := runLoop_accounting obss (initState t0) rfl
    rw [h] at h9
    exact h9

theorem C7_witness :
    log_container_run wSchedFail true (initState 0) =
      some { flushes := [], reported := none, stopRequested := false,
             killRequested := false, removed := false, exitOk := false } ∧
    wMid.total_logs_sent = (wMid.flushes.map List.length).sum :=
  C7_delivery_failure wSchedFail true 0 wMid (by decide)

/-- Counterexample to claim C7 as stated: on a failed delivery the run ends
with reported = none, that is the exception propagates before the summary
print, so the Controller does not report the count delivered before the
failure. -/
theorem C7_counterexample :
    log_container_run wSchedFail false (initState 0) = some wResFail ∧
    wResFail.reported = none ∧ wResFail.exitOk = false := by
  decide

/-- Claim C8 as amended: container.remove runs on the normal exit path and
on the interrupt path, but a failed put_log_events call propagates past it,
so the container is not removed on the delivery failure path. -/
theorem C8_cleanup (obss : List IterObs) (si : Bool) (s : AggState)
    (r : RunResult) (h : log_container_run obss si s = some r) :
    r.removed = r.exitOk ∧
    (∀ s1, runLoop obss s = LoopOutcome.exited s1 → r.removed = true) ∧
    (∀ s1, runLoop obss s = LoopOutcome.interrupted s1 → r.removed = true) ∧
    (∀ s1, runLoop obss s = LoopOutcome.deliveryFailed s1 →
      r.removed = false) := by
  unfold log_container_run at h
  cases ho : runLoop obss s with
  | exited s1 =>
      rw [ho] at h
      have hr := Option.some.inj h
      subst hr
      refine ⟨rfl, fun s2 _ => rfl, fun s2 h2 => ?_, fun s2 h2 => ?_⟩
      · cases h2
      · cases h2
  | interrupted s1 =>
      rw [ho] at h
      have hr := Option.some.inj h
      subst hr
      refine ⟨rfl, fun s2 h2 => ?_, fun s2 _ => rfl, fun s2 h2 => ?_⟩
      · cases h2
      · cases h2
  | deliveryFailed s1 =>
      rw [ho] at h
      have hr := Option.some.inj h
      subst hr
      refine ⟨rfl, fun s2 h2 => ?_, fun s2 h2 => ?_, fun s2 _ => rfl⟩
      · cases h2
      · cases h2
  | outOfSched s1 =>
      rw [ho] at h
      cases h

theorem C8_witness : wRes.removed = wRes.exitOk :=
  (C8_cleanup wSched false (initState 0) wRes (by decide)).1

/-- Counterexample to claim C8 as stated: on the delivery failure path the
run ends without container.remove having run. -/
theorem C8_counterexample :
    log_container_run wSchedFail true (initState 0) = some wResFail ∧
    wResFail.removed = false := by
  decide

/-- Claim C9: create_log_group and create_log_stream are idempotent: the
call always returns normally, a second call with the same name is absorbed
via the ResourceAlreadyExistsException handler and leaves the service state
unchanged, so the destination is never duplicated. -/
theorem C9_idempotent_provisioning (st : LogsState) (g strm : String) :
    (∃ st1, create_log_group st g = Except.ok st1 ∧
        create_log_group st1 g = Except.ok st1 ∧
        st1.groups = (if g ∈ st.groups then st.groups else st.groups ++ [g]) ∧
        st1.streams = st.streams) ∧
    (∃ st2, create_log_stream st g strm = Except.ok st2 ∧
        create_log_stream st2 g strm = Except.ok st2 ∧
        st2.streams = (if (g, strm) ∈ st.streams then st.streams
          else st.streams ++ [(g, strm)]) ∧
        st2.groups = st.groups) := by
  constructor
  · by_cases hg : g ∈ st.groups
    · refine ⟨st, ?_, ?_, by simp [hg], rfl⟩
      · simp [create_log_group, aws_create_log_group, hg]
      · simp [create_log_group, aws_create_log_group, hg]
    · refine ⟨{ st with groups := st.groups ++ [g] }, ?_, ?_, by simp [hg], rfl⟩
      · simp [create_log_group, aws_create_log_group, hg]
      · have hg2 : g ∈ st.groups ++ [g] := by simp
        simp [create_log_group, aws_create_log_group, hg2]
  · by_cases hs : (g, strm) ∈ st.streams
    · refine ⟨st, ?_, ?_, by simp [hs], rfl⟩
      · simp [create_log_stream, aws_create_log_stream, hs]
      · simp [create_log_stream, aws_create_log_stream, hs]
    · refine ⟨{ st with streams := st.streams ++ [(g, strm)] }, ?_, ?_,
        by simp [hs], rfl⟩
      · simp [create_log_stream, aws_create_log_stream, hs]
      · have hs2 : (g, strm) ∈ st.streams ++ [(g, strm)] := by simp
        simp [create_log_stream, aws_create_log_stream, hs2]

/-- Claim C10: per source order is preserved end to end: in a run that
exits the loop normally, the subsequence of flushed entries coming from one
reader equals, in order, the sequence of lines that reader read from its
stream. -/
theorem C10_per_source_order (lines1 lines2 : List String) (cmd : String)
    (qseq : List (Option LogMessage)) (obss : List IterObs) (t0 : Int)
    (s1 : AggState)
    (hint : Interleaves (produce_log_messages lines1 false "stdout" cmd)
      (produce_log_messages lines2 false "stderr" cmd) qseq)
    (hfifo : ∃ rest, qseq = obss.filterMap (fun o => o.dequeued) ++ rest)
    (hrun : runLoop obss (initState t0) = LoopOutcome.exited s1) :
    (s1.flushes.flatten.map LogEntry.message).filter
        (fun m => m.source == "stdout") = lines1.map (mkMessage "stdout" cmd) ∧
    (s1.flushes.flatten.map LogEntry.message).filter
        (fun m => m.source == "stderr") = lines2.map (mkMessage "stderr" cmd) := by
  obtain ⟨hbatch, hpills, htot, hmsgs, hred⟩ :=
    runLoop_complete lines1 lines2 cmd qseq obss t0 s1 hint hfifo hrun
  rw [hmsgs]
  constructor
  · refine interleaves_filter _ hred ?_ ?_
    · intro m hm
      obtain ⟨l, _, rfl⟩ := List.mem_map.mp hm
      rfl
    · intro m hm
      obtain ⟨l, _, rfl⟩ := List.mem_map.mp hm
      show (("stderr" : String) == "stdout") = false
      decide
  · refine interleaves_filter _ (interleaves_symm hred) ?_ ?_
    · intro m hm
      obtain ⟨l, _, rfl⟩ := List.mem_map.mp hm
      rfl
    · intro m hm
      obtain ⟨l, _, rfl⟩ := List.mem_map.mp hm
      show (("stdout" : String) == "stderr") = false
      decide

theorem C10_witness :
    (wFinal.flushes.flatten.map LogEntry.message).filter
        (fun m => m.source == "stdout") =
      (["hello"] : List String).map (mkMessage "stdout" "cmd") ∧
    (wFinal.flushes.flatten.map LogEntry.message).filter
        (fun m => m.source == "stderr") =
      (["oops"] : List String).map (mkMessage "stderr" "cmd") :=
  C10_per_source_order ["hello"] ["oops"] "cmd" wQueue wSched 0 wFinal
    wQueue_interleaves wQueue_fifo (by decide)

end LogContainer
